import Mathlib

/-!
Verification of the live cricket commentary pipeline:
the ring-buffer feed store, the ingestion queue with its periodic drain,
and the two scoreboard accumulators (the summary fold of App.js and the
reducer of CommentaryFeed.js).
-/

namespace CommentaryApp

/-! ## Event model and scoreboard summary (App.js) -/

/-- Payload of an event as read by the App.js accumulator; only
the numeric field runs is consulted there. -/
structure Payload where
  runs : Int
deriving DecidableEq, Repr

/-- An event flowing through the App.js pipeline: a string tag plus payload.
Any tag outside the known set is treated as unrecognized by the fold. -/
structure Event where
  type : String
  payload : Payload
deriving DecidableEq, Repr

/-- The scoreboard summary record of App.js. -/
structure Summary where
  runs : Int
  wickets : Int
  overs : Int
  balls : Int
deriving DecidableEq, Repr

/-- Shared tail of App.js applyEvent (lines 69-77): over-carry when
balls reached 6, then the three upper clamps, in source order. -/
def carryAndClamp (runs wickets overs balls : Int) : Summary :=
  let overs2 := if 6 ≤ balls then overs + balls / 6 else overs
  let balls2 := if 6 ≤ balls then balls % 6 else balls
  let wickets2 := if 10 < wickets then 10 else wickets
  let runs2 := if 300 < runs then 300 else runs
  let overs3 := if 50 < overs2 then 50 else overs2
  ⟨runs2, wickets2, overs3, balls2⟩

/-- App.js applyEvent (lines 54-79): switch on the event tag with
BALL and BOUNDARY sharing a branch, WICKET its own, and every other
tag (including MATCH_STATUS) returning the summary unchanged. -/
def applyEvent (summary : Summary) (evt : Event) : Summary :=
  if evt.type = "BALL" ∨ evt.type = "BOUNDARY" then
    carryAndClamp (summary.runs + evt.payload.runs) summary.wickets summary.overs
      (summary.balls + 1)
  else if evt.type = "WICKET" then
    carryAndClamp summary.runs (summary.wickets + 1) summary.overs (summary.balls + 1)
  else
    summary

/-- Modelled from the spec: the over-carry loop of section 4.3, repeating
overs plus one and balls minus six while balls is at least six. -/
def whileCarry (overs balls : Int) : Int × Int :=
  if h : 6 ≤ balls then whileCarry (overs + 1) (balls - 6) else (overs, balls)
termination_by balls.toNat
decreasing_by omega

/-- Modelled from the spec: the saturating clamps of section 4.3, applied
in the stated order wickets, runs, overs. -/
def clampSpec (runs wickets overs balls : Int) : Summary :=
  let wickets2 := min wickets 10
  let runs2 := min runs 300
  let overs2 := min overs 50
  ⟨runs2, wickets2, overs2, balls⟩

/-- Modelled from the spec: the accumulator transition of section 4.3,
raw update, then while-loop over-carry, then ordered clamps. -/
def applyEventSpec (summary : Summary) (evt : Event) : Summary :=
  if evt.type = "BALL" ∨ evt.type = "BOUNDARY" then
    let p := whileCarry summary.overs (summary.balls + 1)
    clampSpec (summary.runs + evt.payload.runs) summary.wickets p.1 p.2
  else if evt.type = "WICKET" then
    let p := whileCarry summary.overs (summary.balls + 1)
    clampSpec summary.runs (summary.wickets + 1) p.1 p.2
  else
    summary

/-- The documented bounds on a scoreboard summary. -/
def SummaryInv (s : Summary) : Prop :=
  0 ≤ s.balls ∧ s.balls ≤ 5 ∧ 0 ≤ s.wickets ∧ s.wickets ≤ 10 ∧
    0 ≤ s.runs ∧ s.runs ≤ 300 ∧ 0 ≤ s.overs ∧ s.overs ≤ 50

instance (s : Summary) : Decidable (SummaryInv s) := by
  unfold SummaryInv; infer_instance

/-! ## Ring buffer (App.js lines 29-49)

The JS backing array of fixed size limit is modelled as a total store
from positions to optional items; Array(limit).fill(null) is the
everywhere-none store. -/

/-- Point update of the backing store, as the assignment
buf[(head + count) % limit] = item. -/
def setAt {α : Type} (f : Nat → Option α) (i : Nat) (v : α) : Nat → Option α :=
  fun j => if j = i then some v else f j

structure RingBuffer (α : Type) where
  limit : Nat
  buf : Nat → Option α
  head : Nat
  count : Nat

/-- The RingBuffer constructor: capacity limit, all-null storage,
head and count zero. -/
def RingBuffer.new (α : Type) (limit : Nat) : RingBuffer α :=
  { limit := limit, buf := fun _ => none, head := 0, count := 0 }

/-- RingBuffer.push: writes at (head + count) % limit, then either grows
count or advances head when already full. -/
def RingBuffer.push {α : Type} (b : RingBuffer α) (item : α) : RingBuffer α :=
  if b.count < b.limit then
    { b with buf := setAt b.buf ((b.head + b.count) % b.limit) item, count := b.count + 1 }
  else
    { b with buf := setAt b.buf ((b.head + b.count) % b.limit) item,
             head := (b.head + 1) % b.limit }

/-- RingBuffer.toArrayDesc: the i-th element of the snapshot reads position
(head + count - 1 - i + limit) % limit, for i below count. -/
def RingBuffer.toArrayDesc {α : Type} (b : RingBuffer α) : List (Option α) :=
  (List.range b.count).map fun i => b.buf ((b.head + b.count - 1 - i + b.limit) % b.limit)

/-- Folding a list of items into the buffer by repeated push. -/
def RingBuffer.pushAll {α : Type} (b : RingBuffer α) (items : List α) : RingBuffer α :=
  items.foldl RingBuffer.push b

/-- Structural well-formedness of a buffer state: positive capacity,
head in range, count within capacity. -/
def RingBuffer.WF {α : Type} (b : RingBuffer α) : Prop :=
  0 < b.limit ∧ b.head < b.limit ∧ b.count ≤ b.limit

/-! ## Pipeline coordinator (App.js lines 84-119) -/

/-- The mutable pieces owned by the App component: the pending queue,
the ring buffer, the published summary and the published feed. -/
structure AppState where
  queue : List Event
  buffer : RingBuffer Event
  summary : Summary
  feed : List (Option Event)

/-- The splice(0) call of the drain tick: returns every queued event in
arrival order and the emptied queue. -/
def drainAll (q : List Event) : List Event × List Event :=
  (q, [])

/-- One drain tick (App.js lines 94-106): splice the queue; if the batch
is nonempty, push each event into the buffer and fold it into the summary
in arrival order, then publish the new snapshot as the feed; otherwise
change nothing further. -/
def drainTick (st : AppState) : AppState :=
  let d := drainAll st.queue
  let q := d.1
  let st1 := { st with queue := d.2 }
  if 0 < q.length then
    let p := q.foldl (fun acc e => (acc.1.push e, applyEvent acc.2 e)) (st1.buffer, st1.summary)
    { st1 with buffer := p.1, summary := p.2, feed := p.1.toArrayDesc }
  else
    st1

/-- The producer tick enqueue (App.js line 116): append one event at the
tail of the queue. -/
def enqueue (st : AppState) (evt : Event) : AppState :=
  { st with queue := st.queue ++ [evt] }

/-- Repeated producer enqueues. -/
def enqueueAll (st : AppState) (evts : List Event) : AppState :=
  evts.foldl enqueue st

/-- A convenient concrete start state: empty queue, capacity-100 buffer,
all-zero summary, empty feed, as in App.js. -/
def initApp : AppState :=
  ⟨[], RingBuffer.new Event 100, ⟨0, 0, 0, 0⟩, []⟩

end CommentaryApp

namespace Reducer

/-! ## The CommentaryFeed.js reducer accumulator (test.js)

JS dynamic values feeding Number() are modelled by their coercion
behaviour: a numeric value, or a value coercing to NaN; an absent field
is the none of an Option. -/

/-- A JS value as seen by Number(): either numerically valued or
NaN-coercing. -/
inductive JSVal where
  | num (n : Int)
  | nonNumeric
deriving DecidableEq, Repr

/-- Number(payload.runs): none models NaN (absent field or NaN-coercing
value), some n a numeric result. -/
def numberOf : Option JSVal → Option Int
  | some (JSVal.num n) => some n
  | some JSVal.nonNumeric => none
  | none => none

/-- The JS expression x || d on a Number() result: NaN and 0 are falsy
and give the default. -/
def jsOrInt (x : Option Int) (d : Int) : Int :=
  match x with
  | some n => if n = 0 then d else n
  | none => d

/-- The JS expression s || d on an optional string: undefined and the
empty string are falsy and give the default. -/
def jsOrStr (x : Option String) (d : String) : String :=
  match x with
  | some s => if s = "" then d else s
  | none => d

/-- Boolean list-head matching, auxiliary for substring containment. -/
def startsWithB : List Char → List Char → Bool
  | [], _ => true
  | _ :: _, [] => false
  | a :: as, b :: bs => a = b && startsWithB as bs

/-- Boolean substring containment on character lists, as the JS
String.prototype.includes test. -/
def containsB (sub : List Char) : List Char → Bool
  | [] => startsWithB sub []
  | c :: rest => startsWithB sub (c :: rest) || containsB sub rest

/-- ASCII lowercasing of a string as a character list, as toLowerCase on
the status strings of this program. -/
def lowerStr (s : String) : List Char :=
  s.data.map Char.toLower

/-- Payload of a reducer event: optional runs value and optional status
string (absent payload gives both absent). -/
structure RPayload where
  runs : Option JSVal
  status : Option String
deriving DecidableEq, Repr

/-- An event processed by the reducer. -/
structure REvent where
  type : String
  payload : RPayload
deriving DecidableEq, Repr

/-- A commentary feed entry: the base event spread together with the
stamps taken from Date.now() and Math.random(), the display runs of
scoring events, and the unknown marker. -/
structure ComEntry where
  event : REvent
  receivedAt : Int
  idRand : Int
  displayRuns : Option Int
  unknownFlag : Bool
deriving DecidableEq, Repr

/-- The reducer state of CommentaryFeed.js. -/
structure RState where
  totalRuns : Int
  wickets : Int
  balls : Int
  commentary : List ComEntry
  matchStatus : String
deriving DecidableEq, Repr

/-- The initialState record of CommentaryFeed.js. -/
def initialState : RState :=
  ⟨0, 0, 0, [], "Live"⟩

/-- CommentaryFeed.js applyEvent (lines 44-98). The ambient reads
Date.now() and Math.floor(Math.random() * 1e6) are passed explicitly as
now and rand; everything else follows the source case by case. -/
def applyEventR (now rand : Int) (state : RState) (event : REvent) : RState :=
  let payload := event.payload
  let baseEvent : ComEntry := ⟨event, now, rand, none, false⟩
  if event.type = "BALL" then
    let runs := jsOrInt (numberOf payload.runs) 0
    let next := { state with
      totalRuns := state.totalRuns + runs,
      commentary := { baseEvent with displayRuns := some runs } :: state.commentary }
    { next with balls := next.balls + 1 }
  else if event.type = "BOUNDARY" then
    let runs := jsOrInt (numberOf payload.runs) 4
    let next := { state with
      totalRuns := state.totalRuns + runs,
      commentary := { baseEvent with displayRuns := some runs } :: state.commentary }
    { next with balls := next.balls + 1 }
  else if event.type = "WICKET" then
    let next := { state with
      wickets := state.wickets + 1,
      commentary := baseEvent :: state.commentary }
    { next with balls := next.balls + 1 }
  else if event.type = "MATCH_STATUS" then
    let status := jsOrStr payload.status "Status Update"
    let next := { state with
      matchStatus := status,
      commentary := baseEvent :: state.commentary }
    if containsB "new innings".data (lowerStr status) then
      { next with totalRuns := 0, wickets := 0, balls := 0 }
    else
      next
  else
    { state with commentary := { baseEvent with unknownFlag := true } :: state.commentary }

end Reducer

namespace CommentaryApp

/-! ## Ring buffer lemmas -/

theorem setAt_eq {α : Type} (f : Nat → Option α) (i : Nat) (v : α) :
    setAt f i v i = some v := by
  simp [setAt]

theorem setAt_ne {α : Type} (f : Nat → Option α) (i : Nat) (v : α) (j : Nat) (h : j ≠ i) :
    setAt f i v j = f j := by
  simp [setAt, h]

theorem RingBuffer.limit_push {α : Type} (b : RingBuffer α) (x : α) :
    (b.push x).limit = b.limit := by
  unfold RingBuffer.push
  split <;> rfl

theorem RingBuffer.wf_push {α : Type} (b : RingBuffer α) (x : α) (h : b.WF) :
    (b.push x).WF := by
  obtain ⟨h0, hh, hc⟩ := h
  unfold RingBuffer.push RingBuffer.WF
  split
  · refine ⟨h0, hh, ?_⟩
    show b.count + 1 ≤ b.limit
    omega
  · exact ⟨h0, Nat.mod_lt _ h0, hc⟩

theorem RingBuffer.length_toArrayDesc {α : Type} (b : RingBuffer α) :
    b.toArrayDesc.length = b.count := by
  simp [RingBuffer.toArrayDesc]

/-- Adding distinct offsets below the modulus to a common base lands on
distinct residues. -/
theorem mod_shift_inj {N : Nat} (h m1 m2 : Nat) (hm1 : m1 < N) (hm2 : m2 < N)
    (heq : (h + m1) % N = (h + m2) % N) : m1 = m2 := by
  by_contra hne
  rcases Nat.lt_or_ge m1 m2 with hlt | hge
  · have hmod : h + m1 ≡ h + m2 [MOD N] := heq
    have hd : N ∣ h + m2 - (h + m1) := (Nat.modEq_iff_dvd' (by omega)).mp hmod
    have he : h + m2 - (h + m1) = m2 - m1 := by omega
    rw [he] at hd
    have := Nat.eq_zero_of_dvd_of_lt hd (by omega)
    omega
  · have hlt2 : m2 < m1 := by omega
    have hmod : h + m2 ≡ h + m1 [MOD N] := heq.symm
    have hd : N ∣ h + m1 - (h + m2) := (Nat.modEq_iff_dvd' (by omega)).mp hmod
    have he : h + m1 - (h + m2) = m1 - m2 := by omega
    rw [he] at hd
    have := Nat.eq_zero_of_dvd_of_lt hd (by omega)
    omega

/-- One push viewed through the snapshot: the new item goes in front and
the oldest entry falls off when the capacity is exceeded. -/
theorem RingBuffer.toArrayDesc_push {α : Type} (b : RingBuffer α) (x : α) (hwf : b.WF) :
    (b.push x).toArrayDesc = (some x :: b.toArrayDesc).take b.limit := by
  obtain ⟨h0, hh, hc⟩ := hwf
  obtain ⟨L, buf, hd, c⟩ := b
  simp only at h0 hh hc
  by_cases hlt : c < L
  · apply List.ext_getElem
    · simp only [RingBuffer.push, hlt, if_true, RingBuffer.length_toArrayDesc,
        List.length_take, List.length_cons]
      omega
    intro i h1 h2
    simp only [RingBuffer.push, hlt, if_true, RingBuffer.length_toArrayDesc] at h1
    simp only [RingBuffer.push, hlt, if_true, RingBuffer.toArrayDesc,
      List.getElem_map, List.getElem_range, List.getElem_take]
    cases i with
    | zero =>
      simp only [List.getElem_cons_zero]
      have e1 : hd + (c + 1) - 1 - 0 + L = hd + c + L := by omega
      rw [e1, Nat.add_mod_right, setAt_eq]
    | succ j =>
      have hj : j < c := by omega
      simp only [List.getElem_cons_succ, RingBuffer.toArrayDesc,
        List.getElem_map, List.getElem_range]
      have e2 : hd + (c + 1) - 1 - (j + 1) + L = hd + (c - 1 - j) + L := by omega
      have e3 : hd + c - 1 - j + L = hd + (c - 1 - j) + L := by omega
      rw [e2, e3, Nat.add_mod_right]
      refine setAt_ne _ _ _ _ ?_
      intro hEq
      have := mod_shift_inj hd (c - 1 - j) c (by omega) (by omega) hEq
      omega
  · have hcL : c = L := by omega
    subst hcL
    obtain ⟨M, rfl⟩ : ∃ M, c = M + 1 := ⟨c - 1, by omega⟩
    have hnlt : ¬ (M + 1 < M + 1) := by omega
    have hset : (hd + (M + 1)) % (M + 1) = hd := by
      rw [Nat.add_mod_right, Nat.mod_eq_of_lt hh]
    apply List.ext_getElem
    · simp only [RingBuffer.push, hnlt, if_false, RingBuffer.length_toArrayDesc,
        List.length_take, List.length_cons]
      omega
    intro i h1 h2
    simp only [RingBuffer.push, hnlt, if_false, RingBuffer.length_toArrayDesc] at h1
    simp only [RingBuffer.push, hnlt, if_false, RingBuffer.toArrayDesc,
      List.getElem_map, List.getElem_range, List.getElem_take]
    rw [hset]
    cases i with
    | zero =>
      simp only [List.getElem_cons_zero]
      set hd2 := (hd + 1) % (M + 1) with hgen
      have e1 : hd2 + (M + 1) - 1 - 0 + (M + 1) = hd2 + (2 * M + 1) := by omega
      rw [e1, hgen, Nat.mod_add_mod]
      have e2 : hd + 1 + (2 * M + 1) = hd + (M + 1) + (M + 1) := by omega
      rw [e2, Nat.add_mod_right, Nat.add_mod_right, Nat.mod_eq_of_lt hh, setAt_eq]
    | succ j =>
      have hj : j < M := by omega
      simp only [List.getElem_cons_succ, RingBuffer.toArrayDesc,
        List.getElem_map, List.getElem_range]
      set hd2 := (hd + 1) % (M + 1) with hgen
      have e1 : hd2 + (M + 1) - 1 - (j + 1) + (M + 1) = hd2 + (2 * M - j) := by omega
      rw [e1, hgen, Nat.mod_add_mod]
      have e2 : hd + 1 + (2 * M - j) = hd + (M - j) + (M + 1) := by omega
      rw [e2, Nat.add_mod_right]
      have e3 : hd + (M + 1) - 1 - j + (M + 1) = hd + (M - j) + (M + 1) := by omega
      rw [e3, Nat.add_mod_right]
      refine setAt_ne _ _ _ _ ?_
      intro hEq
      have h00 : (hd + (M - j)) % (M + 1) = (hd + 0) % (M + 1) := by
        have h2 : hd + 0 = hd := by omega
        rw [h2, Nat.mod_eq_of_lt hh]; exact hEq
      have := mod_shift_inj hd (M - j) 0 (by omega) (by omega) h00
      omega

theorem take_append_take {β : Type} (a t : List β) (n : Nat) :
    (a ++ t.take n).take n = (a ++ t).take n := by
  rw [List.take_append_eq_append_take, List.take_append_eq_append_take, List.take_take]
  congr 2
  omega

theorem RingBuffer.wf_pushAll {α : Type} (xs : List α) :
    ∀ b : RingBuffer α, b.WF → (b.pushAll xs).WF := by
  induction xs with
  | nil => intro b hwf; exact hwf
  | cons x xs ih =>
    intro b hwf
    exact ih (b.push x) (RingBuffer.wf_push b x hwf)

theorem RingBuffer.limit_pushAll {α : Type} (xs : List α) :
    ∀ b : RingBuffer α, (b.pushAll xs).limit = b.limit := by
  induction xs with
  | nil => intro b; rfl
  | cons x xs ih =>
    intro b
    rw [show b.pushAll (x :: xs) = (b.push x).pushAll xs from rfl, ih (b.push x),
      RingBuffer.limit_push]

/-- The snapshot after pushing a whole list: the new items in reverse
order in front of the old snapshot, truncated at the capacity. -/
theorem RingBuffer.toArrayDesc_pushAll {α : Type} (xs : List α) :
    ∀ b : RingBuffer α, b.WF →
      (b.pushAll xs).toArrayDesc = ((xs.reverse.map some) ++ b.toArrayDesc).take b.limit := by
  induction xs with
  | nil =>
    intro b hwf
    simp only [RingBuffer.pushAll, List.foldl_nil, List.reverse_nil, List.map_nil,
      List.nil_append]
    rw [List.take_of_length_le]
    rw [RingBuffer.length_toArrayDesc]
    exact hwf.2.2
  | cons x xs ih =>
    intro b hwf
    have hstep := RingBuffer.toArrayDesc_push b x hwf
    rw [show b.pushAll (x :: xs) = (b.push x).pushAll xs from rfl,
      ih (b.push x) (RingBuffer.wf_push b x hwf), RingBuffer.limit_push, hstep,
      take_append_take]
    congr 1
    rw [List.reverse_cons, List.map_append, List.append_assoc]
    rfl

/-! ## Carry and clamp lemmas -/

theorem whileCarry_pos : ∀ (n : Nat) (o b : Int), b.toNat ≤ n → 6 ≤ b →
    whileCarry o b = (o + b / 6, b % 6) := by
  intro n
  induction n with
  | zero => intro o b hb h6; omega
  | succ n ih =>
    intro o b hb h6
    rw [whileCarry]
    simp only [h6, dite_true]
    by_cases h12 : 6 ≤ b - 6
    · rw [ih (o + 1) (b - 6) (by omega) h12]
      have h1 : (b - 6) / 6 = b / 6 - 1 := by omega
      have h2 : (b - 6) % 6 = b % 6 := by omega
      rw [h1, h2, show o + 1 + (b / 6 - 1) = o + b / 6 by ring]
    · rw [whileCarry]
      simp only [h12, dite_false]
      have h1 : b / 6 = 1 := by omega
      have h2 : b % 6 = b - 6 := by omega
      rw [h1, h2]

/-- The while-loop carry of the spec agrees with the floor-division carry
of the source on every input. -/
theorem whileCarry_eq (o b : Int) :
    whileCarry o b = (if 6 ≤ b then o + b / 6 else o, if 6 ≤ b then b % 6 else b) := by
  by_cases h : 6 ≤ b
  · simp only [h, if_true]
    exact whileCarry_pos b.toNat o b le_rfl h
  · rw [whileCarry]
    simp [h]

theorem carryAndClamp_eq_spec (runs wickets overs balls : Int) :
    carryAndClamp runs wickets overs balls =
      clampSpec runs wickets (whileCarry overs balls).1 (whileCarry overs balls).2 := by
  rw [whileCarry_eq]
  unfold carryAndClamp clampSpec
  by_cases h6 : 6 ≤ balls <;>
    simp only [h6, if_true, if_false, Summary.mk.injEq, min_def] <;>
    refine ⟨?_, ?_, ?_, trivial⟩ <;> (split <;> split <;> omega)

/-- The shared tail keeps every field inside its documented bounds,
provided the raw inputs are in the ranges reachable from one step. -/
theorem carryAndClamp_inv (r w o bl : Int) (h1 : 0 ≤ r) (h2 : 0 ≤ w) (h3 : 0 ≤ o)
    (h4 : o ≤ 50) (h5 : 0 ≤ bl) (h6 : bl ≤ 6) :
    SummaryInv (carryAndClamp r w o bl) := by
  unfold carryAndClamp SummaryInv
  by_cases hb : 6 ≤ bl
  · have hbl : bl = 6 := by omega
    subst hbl
    have d1 : (6 : Int) / 6 = 1 := by decide
    have d2 : (6 : Int) % 6 = 0 := by decide
    simp only [hb, if_true, d1, d2]
    refine ⟨?_, ?_, ?_, ?_, ?_, ?_, ?_, ?_⟩ <;> (try split) <;> omega
  · simp only [hb, if_false]
    refine ⟨?_, ?_, ?_, ?_, ?_, ?_, ?_, ?_⟩ <;> (try split) <;> omega

/-- Snapshot of a fresh buffer after pushing any list: the most recent
up-to-N items, newest first. -/
theorem desc_pushAll_new {α : Type} (N : Nat) (hN : 1 ≤ N) (xs : List α) :
    ((RingBuffer.new α N).pushAll xs).toArrayDesc = (xs.reverse.take N).map some := by
  have hwf : (RingBuffer.new α N).WF := ⟨hN, hN, Nat.zero_le N⟩
  rw [RingBuffer.toArrayDesc_pushAll xs _ hwf]
  have hdesc : (RingBuffer.new α N).toArrayDesc = [] := rfl
  rw [hdesc, List.append_nil, List.map_take]
  rfl

/-- Reversal exchanges an initial take with a final drop. -/
theorem take_reverse_eq {α : Type} (l : List α) (k : Nat) :
    l.reverse.take (l.length - k) = (l.drop k).reverse := by
  have h1 : l.reverse = (l.drop k).reverse ++ (l.take k).reverse := by
    rw [← List.reverse_append, List.take_append_drop]
  rw [h1]
  refine List.take_left' ?_
  simp [List.length_reverse, List.length_drop]

/-! ## Drain and enqueue lemmas -/

theorem pairFold (q : List Event) : ∀ (b : RingBuffer Event) (s : Summary),
    q.foldl (fun acc e => (acc.1.push e, applyEvent acc.2 e)) (b, s) =
      (b.pushAll q, q.foldl applyEvent s) := by
  induction q with
  | nil => intro b s; rfl
  | cons e q ih => intro b s; exact ih (b.push e) (applyEvent s e)

/-- Closed form of one drain tick. -/
theorem drainTick_eq (st : AppState) :
    drainTick st =
      if 0 < st.queue.length then
        { queue := [], buffer := st.buffer.pushAll st.queue,
          summary := st.queue.foldl applyEvent st.summary,
          feed := (st.buffer.pushAll st.queue).toArrayDesc }
      else { st with queue := [] } := by
  unfold drainTick drainAll
  by_cases h : 0 < st.queue.length
  · simp only [h, if_true]
    rw [pairFold]
  · simp only [h, if_false]

theorem drainTick_queue (st : AppState) : (drainTick st).queue = [] := by
  rw [drainTick_eq]
  split <;> rfl

theorem drainTick_summary (st : AppState) :
    (drainTick st).summary = st.queue.foldl applyEvent st.summary := by
  rw [drainTick_eq]
  by_cases h : 0 < st.queue.length
  · simp only [h, if_true]
  · simp only [h, if_false]
    have hq : st.queue = [] := List.length_eq_zero.mp (by omega)
    rw [hq]
    rfl

theorem drainTick_buffer (st : AppState) :
    (drainTick st).buffer = st.buffer.pushAll st.queue := by
  rw [drainTick_eq]
  by_cases h : 0 < st.queue.length
  · simp only [h, if_true]
  · simp only [h, if_false]
    have hq : st.queue = [] := List.length_eq_zero.mp (by omega)
    rw [hq]
    rfl

theorem drainTick_of_empty (st : AppState) (h : st.queue = []) : drainTick st = st := by
  rw [drainTick_eq]
  rw [h]
  simp only [List.length_nil, lt_irrefl, if_false]
  cases st
  simp_all

theorem enqueueAll_eq (q2 : List Event) : ∀ st : AppState,
    enqueueAll st q2 = { st with queue := st.queue ++ q2 } := by
  induction q2 with
  | nil => intro st; cases st; simp [enqueueAll]
  | cons e q ih =>
    intro st
    rw [show enqueueAll st (e :: q) = enqueueAll (enqueue st e) q from rfl, ih]
    cases st
    simp [enqueue]

theorem pushAll_append (b : RingBuffer Event) (l1 l2 : List Event) :
    b.pushAll (l1 ++ l2) = (b.pushAll l1).pushAll l2 := by
  unfold RingBuffer.pushAll
  rw [List.foldl_append]

theorem flatten_foldl (batches : List (List Event)) : ∀ s : Summary,
    batches.flatten.foldl applyEvent s =
      batches.foldl (fun acc b => b.foldl applyEvent acc) s := by
  induction batches with
  | nil => intro s; rfl
  | cons b bs ih =>
    intro s
    rw [List.flatten_cons, List.foldl_append, List.foldl_cons, ih]

end CommentaryApp

open CommentaryApp Reducer

/-- Claim C1: for every capacity N of at least 1 and every push sequence,
the ring buffer holds at most N events and its snapshot is exactly the
held events in strict most-recent-insert-first order. -/
theorem claim_C1 {α : Type} (N : Nat) (hN : 1 ≤ N) (xs : List α) :
    ((RingBuffer.new α N).pushAll xs).count ≤ N ∧
      ((RingBuffer.new α N).pushAll xs).toArrayDesc = (xs.reverse.take N).map some := by
  have hwf : (RingBuffer.new α N).WF := ⟨hN, hN, Nat.zero_le N⟩
  constructor
  · have h := (RingBuffer.wf_pushAll xs _ hwf).2.2
    rwa [RingBuffer.limit_pushAll] at h
  · exact desc_pushAll_new N hN xs

/-- Witness for claim C1 at capacity 2 with three pushes. -/
theorem claim_C1_witness :
    1 ≤ 2 ∧
      (((RingBuffer.new Nat 2).pushAll [1, 2, 3]).count ≤ 2 ∧
        ((RingBuffer.new Nat 2).pushAll [1, 2, 3]).toArrayDesc =
          ([1, 2, 3].reverse.take 2).map some) :=
  ⟨by decide, claim_C1 2 (by decide) [1, 2, 3]⟩

/-- Claim C2: the App.js fold equals the spec-side fold that applies the
while-loop over-carry to the incremented balls and then the saturating
clamps in the order wickets, runs, overs; and folding any non-scoring
event (in particular an unrecognized one) leaves the summary unchanged,
so clamping is idempotent rather than wrapping. -/
theorem claim_C2 :
    (∀ (s : Summary) (e : Event), applyEvent s e = applyEventSpec s e) ∧
    (∀ (s : Summary) (e : Event),
      e.type ≠ "BALL" → e.type ≠ "BOUNDARY" → e.type ≠ "WICKET" → applyEvent s e = s) := by
  constructor
  · intro s e
    unfold applyEvent applyEventSpec
    by_cases h1 : e.type = "BALL" ∨ e.type = "BOUNDARY"
    · simp only [h1, if_true]
      exact carryAndClamp_eq_spec _ _ _ _
    · simp only [h1, if_false]
      by_cases h2 : e.type = "WICKET"
      · simp only [h2, if_true]
        exact carryAndClamp_eq_spec _ _ _ _
      · simp only [h2, if_false]
  · intro s e hb hbd hw
    unfold applyEvent
    rw [if_neg (by simp [hb, hbd]), if_neg hw]

/-- Witness for claim C2: the refinement at a concrete scoring input and
the no-op branch at a concrete unrecognized input. -/
theorem claim_C2_witness :
    applyEvent ⟨0, 0, 0, 0⟩ ⟨"BALL", ⟨1⟩⟩ = applyEventSpec ⟨0, 0, 0, 0⟩ ⟨"BALL", ⟨1⟩⟩ ∧
      applyEvent ⟨1, 2, 3, 4⟩ ⟨"UNKNOWN_EVENT", ⟨0⟩⟩ = ⟨1, 2, 3, 4⟩ :=
  ⟨claim_C2.1 ⟨0, 0, 0, 0⟩ ⟨"BALL", ⟨1⟩⟩,
    claim_C2.2 ⟨1, 2, 3, 4⟩ ⟨"UNKNOWN_EVENT", ⟨0⟩⟩ (by decide) (by decide) (by decide)⟩

/-- Counterexample to claim C3 as stated: with no precondition on the
summary, folding an event through a summary with negative runs keeps the
negative runs, so the bounds fail. -/
theorem claim_C3_cex :
    ¬ SummaryInv (applyEvent ⟨-1, 0, 0, 0⟩ ⟨"MATCH_STATUS", ⟨0⟩⟩) := by
  decide

/-- Claim C3 (amended): the bounds hold after folding one event provided
the incoming summary already satisfies them and the event carries a
nonnegative runs payload. -/
theorem claim_C3 (s : Summary) (e : Event) (hs : SummaryInv s)
    (hr : 0 ≤ e.payload.runs) : SummaryInv (applyEvent s e) := by
  obtain ⟨hb0, hb5, hw0, hw10, hr0, hr300, ho0, ho50⟩ := hs
  unfold applyEvent
  by_cases h1 : e.type = "BALL" ∨ e.type = "BOUNDARY"
  · simp only [h1, if_true]
    exact carryAndClamp_inv _ _ _ _ (by omega) (by omega) (by omega) (by omega)
      (by omega) (by omega)
  · simp only [h1, if_false]
    by_cases h2 : e.type = "WICKET"
    · simp only [h2, if_true]
      exact carryAndClamp_inv _ _ _ _ (by omega) (by omega) (by omega) (by omega)
        (by omega) (by omega)
    · simp only [h2, if_false]
      exact ⟨hb0, hb5, hw0, hw10, hr0, hr300, ho0, ho50⟩

/-- Witness for claim C3 at the zero summary and a one-run ball. -/
theorem claim_C3_witness :
    SummaryInv ⟨0, 0, 0, 0⟩ ∧ 0 ≤ (Payload.mk 1).runs ∧
      SummaryInv (applyEvent ⟨0, 0, 0, 0⟩ ⟨"BALL", ⟨1⟩⟩) :=
  ⟨by decide, by decide, claim_C3 ⟨0, 0, 0, 0⟩ ⟨"BALL", ⟨1⟩⟩ (by decide) (by decide)⟩

/-- Claim C4: a MATCH_STATUS event makes no numeric change by default;
when the (defaulted) status contains the new-innings marker phrase
case-insensitively, the reducer resets totalRuns, wickets and balls to 0;
and in the App.js summary variant a MATCH_STATUS event changes nothing at
all, so in particular overs is never reset there. -/
theorem claim_C4 :
    (∀ (now rand : Int) (s : RState) (e : REvent), e.type = "MATCH_STATUS" →
      (containsB "new innings".data (lowerStr (jsOrStr e.payload.status "Status Update")) =
          false →
        (applyEventR now rand s e).totalRuns = s.totalRuns ∧
        (applyEventR now rand s e).wickets = s.wickets ∧
        (applyEventR now rand s e).balls = s.balls) ∧
      (containsB "new innings".data (lowerStr (jsOrStr e.payload.status "Status Update")) =
          true →
        (applyEventR now rand s e).totalRuns = 0 ∧
        (applyEventR now rand s e).wickets = 0 ∧
        (applyEventR now rand s e).balls = 0)) ∧
    (∀ (s : Summary) (e : Event), e.type = "MATCH_STATUS" → applyEvent s e = s) := by
  constructor
  · intro now rand s e h
    unfold applyEventR
    rw [h, if_neg (by decide), if_neg (by decide), if_neg (by decide), if_pos rfl]
    constructor
    · intro hfalse
      rw [if_neg (by simp [hfalse])]
      exact ⟨rfl, rfl, rfl⟩
    · intro htrue
      rw [if_pos (by rw [htrue])]
      exact ⟨rfl, rfl, rfl⟩
  · intro s e h
    unfold applyEvent
    rw [h, if_neg (by decide), if_neg (by decide)]

/-- Witness for claim C4: the reset branch on a New Innings status, the
default branch on an Innings Break status, and the App.js no-op. -/
theorem claim_C4_witness :
    ((applyEventR 0 0 initialState ⟨"MATCH_STATUS", ⟨none, some "New Innings"⟩⟩).totalRuns = 0 ∧
      (applyEventR 0 0 initialState ⟨"MATCH_STATUS", ⟨none, some "New Innings"⟩⟩).wickets = 0 ∧
      (applyEventR 0 0 initialState ⟨"MATCH_STATUS", ⟨none, some "New Innings"⟩⟩).balls = 0) ∧
    ((applyEventR 0 0 ⟨7, 2, 3, [], "Live"⟩
        ⟨"MATCH_STATUS", ⟨none, some "Innings Break"⟩⟩).totalRuns =
      (⟨7, 2, 3, [], "Live"⟩ : RState).totalRuns ∧
      (applyEventR 0 0 ⟨7, 2, 3, [], "Live"⟩
        ⟨"MATCH_STATUS", ⟨none, some "Innings Break"⟩⟩).wickets =
      (⟨7, 2, 3, [], "Live"⟩ : RState).wickets ∧
      (applyEventR 0 0 ⟨7, 2, 3, [], "Live"⟩
        ⟨"MATCH_STATUS", ⟨none, some "Innings Break"⟩⟩).balls =
      (⟨7, 2, 3, [], "Live"⟩ : RState).balls) ∧
    applyEvent ⟨1, 2, 3, 4⟩ ⟨"MATCH_STATUS", ⟨0⟩⟩ = ⟨1, 2, 3, 4⟩ :=
  ⟨(claim_C4.1 0 0 initialState ⟨"MATCH_STATUS", ⟨none, some "New Innings"⟩⟩ rfl).2
      (by decide),
    (claim_C4.1 0 0 ⟨7, 2, 3, [], "Live"⟩ ⟨"MATCH_STATUS", ⟨none, some "Innings Break"⟩⟩
      rfl).1 (by decide),
    claim_C4.2 ⟨1, 2, 3, 4⟩ ⟨"MATCH_STATUS", ⟨0⟩⟩ rfl⟩

/-- Counterexample to claim C5 as stated: a BOUNDARY event with an
explicit, valid, numeric runs payload of 0 does not add 0 but the
default 4, so fold does not add event.payload.runs for that input. -/
theorem claim_C5_cex :
    ¬ (applyEventR 0 0 initialState ⟨"BOUNDARY", ⟨some (JSVal.num 0), none⟩⟩).totalRuns =
        initialState.totalRuns + 0 ∧
      (applyEventR 0 0 initialState ⟨"BOUNDARY", ⟨some (JSVal.num 0), none⟩⟩).totalRuns =
        initialState.totalRuns + 4 := by
  constructor <;> decide

/-- Claim C5 (amended): BALL and BOUNDARY increment balls by one and add
the Number coercion of payload.runs filtered through the JS truthiness
default (0 for BALL, 4 for BOUNDARY): an absent or NaN-coercing payload
takes the kind default, a valid nonzero value is added as is, and a valid
zero also takes the kind default; the App.js variant adds the raw payload
runs and increments balls, before carry and clamping. -/
theorem claim_C5 :
    (∀ (now rand : Int) (s : RState) (e : REvent), e.type = "BALL" →
      (applyEventR now rand s e).totalRuns =
        s.totalRuns + jsOrInt (numberOf e.payload.runs) 0 ∧
      (applyEventR now rand s e).balls = s.balls + 1) ∧
    (∀ (now rand : Int) (s : RState) (e : REvent), e.type = "BOUNDARY" →
      (applyEventR now rand s e).totalRuns =
        s.totalRuns + jsOrInt (numberOf e.payload.runs) 4 ∧
      (applyEventR now rand s e).balls = s.balls + 1) ∧
    (∀ (x : Option JSVal) (d n : Int),
      (numberOf x = none → jsOrInt (numberOf x) d = d) ∧
      (numberOf x = some n → n ≠ 0 → jsOrInt (numberOf x) d = n) ∧
      (numberOf x = some 0 → jsOrInt (numberOf x) d = d)) ∧
    (∀ (s : Summary) (e : Event), e.type = "BALL" ∨ e.type = "BOUNDARY" →
      applyEvent s e =
        carryAndClamp (s.runs + e.payload.runs) s.wickets s.overs (s.balls + 1)) := by
  refine ⟨?_, ?_, ?_, ?_⟩
  · intro now rand s e h
    unfold applyEventR
    rw [h, if_pos rfl]
    exact ⟨rfl, rfl⟩
  · intro now rand s e h
    unfold applyEventR
    rw [h, if_neg (by decide), if_pos rfl]
    exact ⟨rfl, rfl⟩
  · intro x d n
    refine ⟨?_, ?_, ?_⟩
    · intro h; rw [h]; rfl
    · intro h hn; rw [h]; simp [jsOrInt, hn]
    · intro h; rw [h]; rfl
  · intro s e h
    unfold applyEvent
    rw [if_pos h]

/-- Witness for claim C5: a two-run ball in the reducer and a boundary
without payload in the reducer, plus the App.js scoring branch. -/
theorem claim_C5_witness :
    ((applyEventR 0 0 initialState ⟨"BALL", ⟨some (JSVal.num 2), none⟩⟩).totalRuns =
        initialState.totalRuns + jsOrInt (numberOf (some (JSVal.num 2))) 0 ∧
      (applyEventR 0 0 initialState ⟨"BALL", ⟨some (JSVal.num 2), none⟩⟩).balls =
        initialState.balls + 1) ∧
    ((applyEventR 0 0 initialState ⟨"BOUNDARY", ⟨none, none⟩⟩).totalRuns =
        initialState.totalRuns + jsOrInt (numberOf none) 4 ∧
      (applyEventR 0 0 initialState ⟨"BOUNDARY", ⟨none, none⟩⟩).balls =
        initialState.balls + 1) ∧
    applyEvent ⟨0, 0, 0, 0⟩ ⟨"BOUNDARY", ⟨4⟩⟩ =
      carryAndClamp (0 + 4) 0 0 (0 + 1) :=
  ⟨claim_C5.1 0 0 initialState ⟨"BALL", ⟨some (JSVal.num 2), none⟩⟩ rfl,
    claim_C5.2.1 0 0 initialState ⟨"BOUNDARY", ⟨none, none⟩⟩ rfl,
    claim_C5.2.2.2 ⟨0, 0, 0, 0⟩ ⟨"BOUNDARY", ⟨4⟩⟩ (Or.inr rfl)⟩

/-- Claim C6: pushing N+k events into a fresh capacity-N buffer leaves
exactly the last N pushed events, newest first; and at every intermediate
point the snapshot holds the most recent pushes, so eviction is strictly
oldest first. -/
theorem claim_C6 {α : Type} (N k : Nat) (hN : 1 ≤ N) (hk : 1 ≤ k) (xs : List α)
    (hlen : xs.length = N + k) :
    ((RingBuffer.new α N).pushAll xs).toArrayDesc = ((xs.drop k).reverse).map some ∧
    ∀ j, j ≤ xs.length →
      ((RingBuffer.new α N).pushAll (xs.take j)).toArrayDesc =
        (((xs.take j).reverse).take N).map some := by
  constructor
  · rw [desc_pushAll_new N hN xs]
    congr 1
    rw [show N = xs.length - k by omega]
    exact take_reverse_eq xs k
  · intro j hj
    exact desc_pushAll_new N hN (xs.take j)

/-- Witness for claim C6 at capacity 2 and one overflow push. -/
theorem claim_C6_witness :
    1 ≤ 2 ∧ 1 ≤ 1 ∧ ([10, 20, 30] : List Nat).length = 2 + 1 ∧
      (((RingBuffer.new Nat 2).pushAll [10, 20, 30]).toArrayDesc =
          (([10, 20, 30].drop 1).reverse).map some ∧
        ∀ j, j ≤ ([10, 20, 30] : List Nat).length →
          ((RingBuffer.new Nat 2).pushAll ([10, 20, 30].take j)).toArrayDesc =
            ((([10, 20, 30].take j).reverse).take 2).map some) :=
  ⟨by decide, by decide, by decide,
    claim_C6 2 1 (by decide) (by decide) [10, 20, 30] (by decide)⟩

/-- Claim C7: a drain tick empties the queue, applies the drained events
in arrival order to the buffer and the summary, and on an empty queue
changes nothing at all, leaving the published feed and summary views
untouched. -/
theorem claim_C7 (st : AppState) :
    (drainTick st).queue = [] ∧
    (drainTick st).summary = st.queue.foldl applyEvent st.summary ∧
    (drainTick st).buffer = st.buffer.pushAll st.queue ∧
    (st.queue = [] → drainTick st = st) :=
  ⟨drainTick_queue st, drainTick_summary st, drainTick_buffer st,
    drainTick_of_empty st⟩

/-- Witness for claim C7 at the initial state, whose queue is empty. -/
theorem claim_C7_witness :
    (drainTick initApp).queue = [] ∧ drainTick initApp = initApp :=
  ⟨(claim_C7 initApp).1, (claim_C7 initApp).2.2.2 rfl⟩

/-- Claim C8: folding a flattened batching equals folding batch by batch,
and events enqueued before and after a drain tick reach the buffer and
the summary in exactly their enqueue order across the two ticks. -/
theorem claim_C8 :
    (∀ (s : Summary) (batches : List (List Event)),
      batches.flatten.foldl applyEvent s =
        batches.foldl (fun acc b => b.foldl applyEvent acc) s) ∧
    (∀ (st : AppState) (q2 : List Event),
      (drainTick (enqueueAll (drainTick st) q2)).summary =
        (st.queue ++ q2).foldl applyEvent st.summary ∧
      (drainTick (enqueueAll (drainTick st) q2)).buffer =
        st.buffer.pushAll (st.queue ++ q2)) := by
  constructor
  · intro s batches
    exact flatten_foldl batches s
  · intro st q2
    rw [enqueueAll_eq]
    constructor
    · rw [drainTick_summary]
      simp only [drainTick_queue, List.nil_append]
      rw [drainTick_summary, List.foldl_append]
    · rw [drainTick_buffer]
      simp only [drainTick_queue, List.nil_append]
      rw [drainTick_buffer, pushAll_append]

/-- Counterexample to claim C9 as stated: the reducer applyEvent reads the
clock and the random generator to stamp commentary entries, so two
applications to the same state and event can differ. -/
theorem claim_C9_cex :
    applyEventR 0 0 initialState ⟨"BALL", ⟨some (JSVal.num 1), none⟩⟩ ≠
      applyEventR 1 0 initialState ⟨"BALL", ⟨some (JSVal.num 1), none⟩⟩ := by
  decide

/-- Claim C9 (amended): the scoreboard projection of the reducer fold is a
deterministic function of the state and the event alone, independent of
the clock and random stamps; only the commentary entry identifiers vary. -/
theorem claim_C9 (now1 rand1 now2 rand2 : Int) (s : RState) (e : REvent) :
    (applyEventR now1 rand1 s e).totalRuns = (applyEventR now2 rand2 s e).totalRuns ∧
    (applyEventR now1 rand1 s e).wickets = (applyEventR now2 rand2 s e).wickets ∧
    (applyEventR now1 rand1 s e).balls = (applyEventR now2 rand2 s e).balls ∧
    (applyEventR now1 rand1 s e).matchStatus = (applyEventR now2 rand2 s e).matchStatus := by
  unfold applyEventR
  by_cases h1 : e.type = "BALL"
  · rw [h1, if_pos rfl]
    exact ⟨rfl, rfl, rfl, rfl⟩
  · rw [if_neg h1, if_neg h1]
    by_cases h2 : e.type = "BOUNDARY"
    · rw [h2, if_pos rfl]
      exact ⟨rfl, rfl, rfl, rfl⟩
    · rw [if_neg h2, if_neg h2]
      by_cases h3 : e.type = "WICKET"
      · rw [h3, if_pos rfl]
        exact ⟨rfl, rfl, rfl, rfl⟩
      · rw [if_neg h3, if_neg h3]
        by_cases h4 : e.type = "MATCH_STATUS"
        · rw [h4, if_pos rfl]
          by_cases h5 : containsB "new innings".data
              (lowerStr (jsOrStr e.payload.status "Status Update")) = true
          · rw [if_pos h5, if_pos h5]
            exact ⟨rfl, rfl, rfl, rfl⟩
          · rw [if_neg h5, if_neg h5]
            exact ⟨rfl, rfl, rfl, rfl⟩
        · rw [if_neg h4, if_neg h4]
          exact ⟨rfl, rfl, rfl, rfl⟩

/-- Claim C10: in the reducer, a BOUNDARY whose runs payload coerces to 0
or NaN (in particular an explicit 0) adds exactly the default 4 runs. -/
theorem claim_C10 (now rand : Int) (s : RState) (e : REvent) (ht : e.type = "BOUNDARY")
    (hr : numberOf e.payload.runs = some 0 ∨ numberOf e.payload.runs = none) :
    (applyEventR now rand s e).totalRuns = s.totalRuns + 4 := by
  unfold applyEventR
  rw [ht, if_neg (by decide), if_pos rfl]
  rcases hr with h | h <;> rw [h] <;> rfl

/-- Witness for claim C10 at an explicit zero-run boundary. -/
theorem claim_C10_witness :
    (⟨"BOUNDARY", ⟨some (JSVal.num 0), none⟩⟩ : REvent).type = "BOUNDARY" ∧
      numberOf (⟨"BOUNDARY", ⟨some (JSVal.num 0), none⟩⟩ : REvent).payload.runs = some 0 ∧
      (applyEventR 0 0 initialState ⟨"BOUNDARY", ⟨some (JSVal.num 0), none⟩⟩).totalRuns =
        initialState.totalRuns + 4 :=
  ⟨rfl, rfl,
    claim_C10 0 0 initialState ⟨"BOUNDARY", ⟨some (JSVal.num 0), none⟩⟩ rfl (Or.inl rfl)⟩
